import Mathlib

/-
  Verification development for the PDF catalog extraction pipeline
  (src/main.py).  The Python functions are shallowly embedded as
  executable Lean definitions over `List Char` / `String`, with machine
  floats modelled as exact rationals (every numeric literal the price
  regex can produce is an exact decimal, so no rounding behaviour is
  observable at the claim level).
-/

namespace PdfExtract

/-- Whitespace as recognised by Python `str.strip()` and the regex class `\s`
on `str` patterns: ASCII whitespace, the file/group/record separators, NEL,
NBSP and the common Unicode space characters. -/
def pyIsSpace (c : Char) : Bool :=
  decide (c.toNat = 0x20 ∨ c.toNat = 0x9 ∨ c.toNat = 0xa ∨ c.toNat = 0xd ∨
    c.toNat = 0xb ∨ c.toNat = 0xc ∨ c.toNat = 0x1c ∨ c.toNat = 0x1d ∨
    c.toNat = 0x1e ∨ c.toNat = 0x85 ∨ c.toNat = 0xa0 ∨ c.toNat = 0x1680 ∨
    (0x2000 ≤ c.toNat ∧ c.toNat ≤ 0x200a) ∨ c.toNat = 0x2028 ∨
    c.toNat = 0x2029 ∨ c.toNat = 0x202f ∨ c.toNat = 0x205f ∨ c.toNat = 0x3000)

/-- Line terminators recognised by Python `str.splitlines` (the CR LF pair is
handled separately in `splitlinesGo`). -/
def isEOLChar (c : Char) : Bool :=
  decide (c.toNat = 0xa ∨ c.toNat = 0xd ∨ c.toNat = 0xb ∨ c.toNat = 0xc ∨
    c.toNat = 0x1c ∨ c.toNat = 0x1d ∨ c.toNat = 0x1e ∨ c.toNat = 0x85 ∨
    c.toNat = 0x2028 ∨ c.toNat = 0x2029)

/-- The regex class `[0-9]` (ASCII digits only, also under the Unicode
semantics Python applies to `str` patterns). -/
def pyIsDigit (c : Char) : Bool := decide (48 ≤ c.toNat ∧ c.toNat ≤ 57)

/-- Worker for `splitlinesPy`: `acc` holds the current line reversed.
A terminator ends the current line; a trailing terminator does not open a
new empty line (Python semantics). -/
def splitlinesGo : List Char → List Char → List (List Char)
  | acc, [] => [acc.reverse]
  | acc, '\r' :: '\n' :: t =>
    acc.reverse :: (match t with | [] => [] | _ :: _ => splitlinesGo [] t)
  | acc, c :: t =>
    if isEOLChar c then
      acc.reverse :: (match t with | [] => [] | _ :: _ => splitlinesGo [] t)
    else splitlinesGo (c :: acc) t

/-- Python `str.splitlines()` on the character list of a string. -/
def splitlinesPy (l : List Char) : List (List Char) :=
  match l with
  | [] => []
  | _ :: _ => splitlinesGo [] l

/-- Strip characters satisfying `p` from both ends of a list. -/
def stripEnds (p : Char → Bool) (l : List Char) : List Char :=
  ((l.dropWhile p).reverse.dropWhile p).reverse

/-- Python `str.strip()` with no arguments (whitespace strip). -/
def pyStrip (l : List Char) : List Char := stripEnds pyIsSpace l

/-- Case-insensitive literal prefix match, as performed for a fixed pattern
inside a regex compiled with the IGNORECASE flag.  The pattern is given in
lowercase; on success the ORIGINAL characters of the input prefix are
returned together with the rest of the input. -/
def startsWithCi : List Char → List Char → Option (List Char × List Char)
  | [], l => some ([], l)
  | _ :: _, [] => none
  | p :: ps, c :: t =>
    if c.toLower == p then
      match startsWithCi ps t with
      | some pr => some (c :: pr.1, pr.2)
      | none => none
    else none

/-- Case-insensitive substring test (regex `search` of a fixed literal
alternation member). -/
def containsCi (pat : List Char) : List Char → Bool
  | [] => (startsWithCi pat []).isSome
  | c :: t =>
    match startsWithCi pat (c :: t) with
    | some _ => true
    | none => containsCi pat t

/-- Maximal run of regex whitespace, as consumed by a greedy `\s*` that must
be followed by a digit (no shorter stop can expose a digit, because every
skipped character is itself whitespace). -/
def skipWs (l : List Char) : List Char := l.dropWhile pyIsSpace

/-- The `(?:,[0-9]{3})*` part of the price regex: greedily consume groups of
a comma followed by exactly three digits.  Returns the consumed characters
and the rest. -/
def commaGroups : List Char → List Char × List Char
  | ',' :: a :: b :: c :: t =>
    if pyIsDigit a && pyIsDigit b && pyIsDigit c then
      let p := commaGroups t
      (',' :: a :: b :: c :: p.1, p.2)
    else ([], ',' :: a :: b :: c :: t)
  | l => ([], l)

/-- The `(?:\.[0-9]+)?` part of the price regex: an optional dot followed by
at least one digit, consumed greedily. -/
def fracPart : List Char → List Char × List Char
  | '.' :: t =>
    let ds := t.takeWhile pyIsDigit
    if ds.isEmpty then ([], '.' :: t) else ('.' :: ds, t.drop ds.length)
  | l => ([], l)

/-- First alternative of the numeric group of PRICE_RE:
`[0-9]{1,3}(?:,[0-9]{3})*(?:\.[0-9]+)?`.  The leading quantifier is greedy
and takes at most three digits. -/
def priceAlt1 (l : List Char) : Option (List Char × List Char) :=
  let ds := (l.takeWhile pyIsDigit).take 3
  if ds.isEmpty then none
  else
    let p := commaGroups (l.drop ds.length)
    let f := fracPart p.2
    some (ds ++ p.1 ++ f.1, f.2)

/-- Second alternative of the numeric group of PRICE_RE:
`[0-9]+(?:\.[0-9]+)?`. -/
def priceAlt2 (l : List Char) : Option (List Char × List Char) :=
  let ds := l.takeWhile pyIsDigit
  if ds.isEmpty then none
  else
    let f := fracPart (l.drop ds.length)
    some (ds ++ f.1, f.2)

/-- The numeric group of PRICE_RE, with the ordered alternation of the two
alternatives (the engine commits to the first alternative that succeeds). -/
def numAt (l : List Char) : Option (List Char × List Char) :=
  match priceAlt1 l with
  | some r => some r
  | none => priceAlt2 l

/-- The ordered list of attempts for the optional currency group
`(₹|rs\.?|inr)?` of PRICE_RE at one input position: each candidate pairs the
matched currency text (none for the empty attempt, tried last) with the rest
of the input.  For `rs` the greedy `\.?` makes the variant with the dot come
first. -/
def curAlternatives (l : List Char) : List (Option (List Char) × List Char) :=
  (match startsWithCi "₹".data l with
   | some p => [(some p.1, p.2)]
   | none =>
     match startsWithCi "rs".data l with
     | some p =>
       (match p.2 with
        | '.' :: t2 => [(some (p.1 ++ ['.']), t2), (some p.1, p.2)]
        | _ => [(some p.1, p.2)])
     | none =>
       match startsWithCi "inr".data l with
       | some p => [(some p.1, p.2)]
       | none => []) ++ [(none, l)]

/-- One candidate continuation of a PRICE_RE match: after the (possibly
empty) currency, consume `\s*` and then the numeric group. -/
def tryNum (cur : Option (List Char)) (r : List Char) :
    Option (Option (List Char) × List Char × List Char) :=
  match numAt (skipWs r) with
  | some nr => some (cur, nr.1, nr.2)
  | none => none

/-- Attempt to match PRICE_RE at one fixed position: the regex backtracks
through the currency alternatives in order and falls back to no currency. -/
def priceMatchAt (l : List Char) : Option (Option (List Char) × List Char × List Char) :=
  (curAlternatives l).findSome? (fun c => tryNum c.1 c.2)

/-- A successful `PRICE_RE.search`: `pre` is the text before the match,
`cur` the text matched by group 1 (the currency), `num` the text matched by
group 2 (the numeric value), and `rest` the text after the match. -/
structure PriceFound where
  pre : List Char
  cur : Option (List Char)
  num : List Char
  rest : List Char

/-- `PRICE_RE.search`: try to match at each position from the left; the
leftmost successful position wins. -/
def priceFind : List Char → Option PriceFound
  | [] =>
    match priceMatchAt [] with
    | some r => some ⟨[], r.1, r.2.1, r.2.2⟩
    | none => none
  | c :: t =>
    match priceMatchAt (c :: t) with
    | some r => some ⟨[], r.1, r.2.1, r.2.2⟩
    | none =>
      match priceFind t with
      | some f => some ⟨c :: f.pre, f.cur, f.num, f.rest⟩
      | none => none

/-- Numeric value of a digit string. -/
def digitsVal (l : List Char) : ℕ :=
  l.foldl (fun n c => 10 * n + (c.toNat - '0'.toNat)) 0

/-- Python `float()` on the decimal strings that the price regex can produce
(digits with an optional fractional part), returning an exact rational.
The conversion fails (`none`) on any other shape; such shapes, as well as
the exponent and bare-dot forms `float` additionally accepts, never reach
this function from the regex. -/
def parseDec (l : List Char) : Option ℚ :=
  let ip := l.takeWhile pyIsDigit
  let rest := l.dropWhile pyIsDigit
  if ip.isEmpty then none
  else
    match rest with
    | [] => some (digitsVal ip)
    | '.' :: fr =>
      if fr.all pyIsDigit then
        some ((digitsVal ip : ℚ) + (digitsVal fr : ℚ) / (10 : ℚ) ^ fr.length)
      else none
    | _ => none

/-- `_normalize_price_str` from src/main.py lines 36-46 (the leading
underscore of the source name is dropped): search PRICE_RE, normalize the
currency by uppercasing and deleting dots, and convert the numeric text with
thousands separators removed. -/
def normalize_price_str (s : List Char) : Option String × Option ℚ :=
  match priceFind s with
  | none => (none, none)
  | some f =>
    (f.cur.map (fun cs => String.mk ((cs.map Char.toUpper).filter (fun c => c != '.'))),
     parseDec (f.num.filter (fun c => c != ',')))

/-- Fueled worker for the PRICE_RE sub with empty replacement: remove each non-overlapping
match, continuing after the removed span.  Every match consumes at least one
character (its digit), so a fuel of the input length never runs out. -/
def priceSubFuel : ℕ → List Char → List Char
  | 0, l => l
  | n + 1, l =>
    match priceFind l with
    | none => l
    | some f => f.pre ++ priceSubFuel n f.rest

/-- The PRICE_RE sub with empty replacement: delete every match of the price pattern. -/
def priceSubAll (l : List Char) : List Char := priceSubFuel l.length l

/-- Word characters for the `\b` boundary of the unit regex (ASCII, which
covers every token of the controlled vocabulary and every input considered
here). -/
def isWordChar (c : Char) : Bool := c.isAlpha || pyIsDigit c || c == '_'

/-- The alternation of POSSIBLE_UNIT_RE in source order, with the greedy
`pcs?` expanded into the attempts `pcs` then `pc`. -/
def unitVocab : List (List Char) :=
  ["ml".data, "l".data, "litre".data, "g".data, "kg".data, "pcs".data, "pc".data,
   "pack".data, "set".data, "cm".data, "mm".data, "inch".data, "in".data,
   "ft".data, "m".data]

/-- Attempt to match POSSIBLE_UNIT_RE immediately at this position (the
leading `\b` has already been checked by the caller): the first vocabulary
alternative that matches case-insensitively and is followed by a word
boundary wins; the ORIGINAL characters are returned, as `m_unit.group(1)`
preserves the input case. -/
def unitMatchAt (l : List Char) : Option (List Char) :=
  unitVocab.findSome? (fun pat =>
    match startsWithCi pat l with
    | some p =>
      match p.2 with
      | [] => some p.1
      | c :: _ => if isWordChar c then none else some p.1
    | none => none)

/-- `POSSIBLE_UNIT_RE.search` worker: scan positions left to right, keeping
track of whether the previous character is a word character (needed for the
leading `\b`). -/
def unitSearchGo : Bool → List Char → Option (List Char)
  | _, [] => none
  | prevWord, c :: t =>
    match (if prevWord then none else unitMatchAt (c :: t)) with
    | some m => some m
    | none => unitSearchGo (isWordChar c) t

/-- `POSSIBLE_UNIT_RE.search`: the start of the string is a word boundary
when the first character is a word character. -/
def unitSearch (l : List Char) : Option (List Char) := unitSearchGo false l

/-- The keyword filter of the name heuristic,
`re.search(r"(?i)price|mrp|size|variant|qty|quantity", ln)`. -/
def hasKeyword (l : List Char) : Bool :=
  containsCi "price".data l || containsCi "mrp".data l || containsCi "size".data l ||
  containsCi "variant".data l || containsCi "qty".data l || containsCi "quantity".data l

/-- Name-line heuristic of src/main.py line 69: at least 3 letters, digit
count at most half the length, and no table-header keyword. -/
def nameCondition (ln : List Char) : Bool :=
  decide (3 ≤ (ln.filter Char.isAlpha).length) &&
  decide (2 * (ln.filter pyIsDigit).length ≤ ln.length) &&
  !(hasKeyword ln)

/-- ASCII alphanumeric, the class `[A-Z0-9]` under IGNORECASE. -/
def isAlnumC (c : Char) : Bool := c.isAlpha || pyIsDigit c

/-- The class `[A-Z0-9\-_/]` of SKU_RE under IGNORECASE. -/
def skuTokenChar (c : Char) : Bool := isAlnumC c || c == '-' || c == '_' || c == '/'

/-- The labels of SKU_RE, `(?:sku|item code|code|model)`, in source order. -/
def skuLabels : List (List Char) :=
  ["sku".data, "item code".data, "code".data, "model".data]

/-- After a label of SKU_RE: consume `[:\s-]*` greedily, then group 1,
`[A-Z0-9][A-Z0-9\-_/]{2,}` (an alphanumeric head followed by a greedy run
of at least two token characters).  The separator class is disjoint from
the token head class, so greedy consumption needs no backtracking. -/
def skuTokenAfter (r : List Char) : Option (List Char) :=
  match r.dropWhile (fun c => c == ':' || pyIsSpace c || c == '-') with
  | [] => none
  | c :: t =>
    if isAlnumC c then
      let run := t.takeWhile skuTokenChar
      if 2 ≤ run.length then some (c :: run) else none
    else none

/-- Attempt to match SKU_RE at one position: the label alternatives are
tried in order, each followed by the separator run and group 1. -/
def skuMatchAt (l : List Char) : Option (List Char) :=
  skuLabels.findSome? (fun lab =>
    match startsWithCi lab l with
    | some p => skuTokenAfter p.2
    | none => none)

/-- `SKU_RE.search`: leftmost match of the SKU pattern, returning group 1. -/
def skuSearch : List Char → Option (List Char)
  | [] => skuMatchAt []
  | c :: t =>
    match skuMatchAt (c :: t) with
    | some tok => some tok
    | none => skuSearch t

/-- One iteration of the name/SKU scan of src/main.py lines 63-72, over one
of the first five lines: record the first SKU match (stripped) and the
first line passing the name heuristic. -/
def scanStep (st : Option (List Char) × Option (List Char)) (ln : List Char) :
    Option (List Char) × Option (List Char) :=
  let sk :=
    match skuSearch ln with
    | some tok => if st.2.isNone then some (pyStrip tok) else st.2
    | none => st.2
  let pn := if st.1.isNone && nameCondition ln then some ln else st.1
  (pn, sk)

/-- The scan of the first five lines for a product name and SKU. -/
def scanNameSku (lines : List (List Char)) : Option (List Char) × Option (List Char) :=
  (lines.take 5).foldl scanStep (none, none)

/-- A product row draft as built by `parse_text_block_to_products`
(src/main.py lines 102-124).  Prices are exact rationals standing for the
Python floats, which are exact on every decimal the price regex yields at
the magnitudes considered here. -/
structure ProductRow where
  product_name : String
  sku : Option String
  variant : Option String
  unit : Option String
  price : Option ℚ
  currency : Option String
  description : Option String
deriving DecidableEq

/-- Characters stripped from the ends of the variant text,
`.strip(" -:\t")`. -/
def isVariantTrim (c : Char) : Bool := c == ' ' || c == '-' || c == ':' || c == '\t'

/-- Worker for `re.sub(r"\s{2,}", " ", _)`: in skipping mode (first
argument true) the remainder of a whitespace run that has already been
replaced by one space is dropped. -/
def collapseGo : Bool → List Char → List Char
  | _, [] => []
  | true, c :: t =>
    if pyIsSpace c then collapseGo true t else c :: collapseGo false t
  | false, c :: t =>
    if pyIsSpace c then
      match t with
      | [] => [c]
      | c2 :: _ =>
        if pyIsSpace c2 then ' ' :: collapseGo true t else c :: collapseGo false t
    else c :: collapseGo false t

/-- `re.sub(r"\s{2,}", " ", _)`: every run of two or more whitespace
characters collapses to a single space; a lone whitespace character is kept
as it is. -/
def collapseWs (l : List Char) : List Char := collapseGo false l

/-- The variant text of a price line (src/main.py lines 91-95): the line
with every PRICE_RE match deleted, end-trimmed of delimiters, with inner
whitespace runs collapsed. -/
def variantOf (ln : List Char) : List Char :=
  collapseWs (stripEnds isVariantTrim (priceSubAll ln))

/-- The per-line classification of src/main.py lines 85-111: a line whose
price converts contributes a draft row (description filled later); any
other line contributes nothing. -/
def rowOfLine (pname : List Char) (sk : Option (List Char)) (ln : List Char) :
    Option ProductRow :=
  match normalize_price_str ln with
  | (cur, some p) =>
    let v := variantOf ln
    some { product_name := String.mk pname,
           sku := sk.map String.mk,
           variant := if v.isEmpty then none else some (String.mk v),
           unit := (unitSearch v).map String.mk,
           price := some p,
           currency := cur,
           description := none }
  | (_, none) => none

/-- The description buffer of src/main.py lines 82-83: the lines with no
PRICE_RE match, in order. -/
def descriptionLinesOf (lines : List (List Char)) : List (List Char) :=
  lines.filter (fun ln => (priceFind ln).isNone)

/-- `" ".join(_)`. -/
def joinSp (ls : List (List Char)) : List Char := List.intercalate [' '] ls

/-- The line preprocessing of src/main.py line 54: split into lines, strip
each, and keep the non-empty ones. -/
def linesOf (text : String) : List (List Char) :=
  (splitlinesPy text.data).filterMap (fun ln =>
    let s := pyStrip ln
    if s.isEmpty then none else some s)

/-- `parse_text_block_to_products` from src/main.py lines 49-131. -/
def parse_text_block_to_products (text : String) : List ProductRow :=
  match linesOf text with
  | [] => []
  | l0 :: rest =>
    let lines := l0 :: rest
    let st := scanNameSku lines
    let pname := st.1.getD l0
    let sk := st.2
    let rows := lines.filterMap (rowOfLine pname sk)
    if rows.isEmpty then
      [{ product_name := String.mk pname, sku := sk.map String.mk,
         variant := none, unit := none, price := none, currency := none,
         description := some (String.mk ((joinSp lines).take 400)) }]
    else
      rows.map (fun r =>
        { r with
            description := some (String.mk ((joinSp ((descriptionLinesOf lines).take 3)).take 400)) })

/-- Number of lines of the segment on which PRICE_RE matches (the lines the
parser classifies as price lines). -/
def countPriceLines (text : String) : ℕ :=
  ((linesOf text).filter (fun ln => (priceFind ln).isSome)).length

/-- A line containing at least one decimal digit. -/
def hasDigit (l : List Char) : Bool := l.any pyIsDigit

/-- The characters replaced by `sanitize_filename`,
the regex class `[<>:"/\\|?*]`. -/
def invalidFilenameChar (c : Char) : Bool :=
  c == '<' || c == '>' || c == ':' || c == '\"' || c == '/' || c == '\\' ||
  c == '|' || c == '?' || c == '*'

/-- Worker for the sub of the class `[<>:"/\\|?*]+` with an underscore: the quantified class
makes each maximal run of invalid characters one match, replaced by one
underscore. -/
def sanitizeGo : List Char → List Char
  | [] => []
  | [c] => if invalidFilenameChar c then ['_'] else [c]
  | c1 :: c2 :: t =>
    if invalidFilenameChar c1 then
      if invalidFilenameChar c2 then sanitizeGo (c2 :: t)
      else '_' :: sanitizeGo (c2 :: t)
    else c1 :: sanitizeGo (c2 :: t)

/-- `sanitize_filename` from src/main.py lines 17-20: strip, then replace
every run of invalid path characters with an underscore. -/
def sanitize_filename (name : String) : String :=
  String.mk (sanitizeGo (pyStrip name.data))

/-- Spec-side formulation of the amended sanitization claim: split the
trimmed name on the maximal runs of invalid characters (keeping the possibly
empty segments at the borders) and rejoin with single underscores. -/
def splitRuns : List Char → List (List Char)
  | [] => [[]]
  | [c] => if invalidFilenameChar c then [[], []] else [[c]]
  | c1 :: c2 :: t =>
    if invalidFilenameChar c1 then
      if invalidFilenameChar c2 then splitRuns (c2 :: t)
      else [] :: splitRuns (c2 :: t)
    else
      match splitRuns (c2 :: t) with
      | s :: rest => (c1 :: s) :: rest
      | [] => [[c1]]

/-- Join segments with single underscores. -/
def joinUnderscore : List (List Char) → List Char
  | [] => []
  | [s] => s
  | s :: rest => s ++ '_' :: joinUnderscore rest

/-- A position box on a page, as the four coordinates of a block bbox.
Coordinates are modelled as exact rationals. -/
structure Box where
  x0 : ℚ
  y0 : ℚ
  x1 : ℚ
  y1 : ℚ
deriving DecidableEq

/-- The all-zero box `(0, 0, 0, 0)` standing for an unknown position. -/
def zeroBox : Box := ⟨0, 0, 0, 0⟩

/-- `_center` from src/main.py lines 27-29. -/
def center (b : Box) : ℚ × ℚ := ((b.x0 + b.x1) / 2, (b.y0 + b.y1) / 2)

/-- The square of `_distance` from src/main.py lines 32-33.  The source
compares Euclidean distances obtained with `** 0.5`; the square root is
strictly monotone on nonnegative reals, so comparing squared distances
decides `d < best_d` identically. -/
def distSq (a b : ℚ × ℚ) : ℚ := (a.1 - b.1) ^ 2 + (a.2 - b.2) ^ 2

/-- One extracted image of a page: reference id, optional position box and
the recorded relative path (src/main.py lines 176-180 and 198-202). -/
structure ImageEntry where
  xref : ℕ
  bbox : Option Box
  path : String
deriving DecidableEq

/-- The per-row image assignment of src/main.py lines 242-264: a row with a
missing or all-zero text box takes the first image of the page when one
exists; otherwise the image with the nearest usable box center wins, ties
going to the first-encountered image, and images without a usable box are
skipped. -/
def assignImagePath (tb : Option Box) (images : List ImageEntry) : Option String :=
  match tb with
  | none => (images.head?).map (fun i => i.path)
  | some b =>
    if b = zeroBox then (images.head?).map (fun i => i.path)
    else
      let tc := center b
      let best := images.foldl
        (fun acc img =>
          match img.bbox with
          | none => acc
          | some ib =>
            if ib = zeroBox then acc
            else
              let d := distSq tc (center ib)
              match acc with
              | none => some (img, d)
              | some bd => if d < bd.2 then some (img, d) else acc)
        none
      best.map (fun bd => bd.1.path)

/-- The page loop of `extract_data_from_pdf` (src/main.py lines 148-270),
with the processing of one page abstracted as its outcome: a page either
yields its rows or raises.  An exception in the body propagates at once,
abandoning the remaining pages. -/
def processPages {α : Type} : List (Except String α) → Except String (List α)
  | [] => Except.ok []
  | p :: t =>
    match p with
    | Except.error e => Except.error e
    | Except.ok a =>
      match processPages t with
      | Except.ok l => Except.ok (a :: l)
      | Except.error e => Except.error e

/-- The document-handle lifecycle of `extract_data_from_pdf` (src/main.py
lines 145-272): the document is opened at line 145 and `doc.close()` stands
at line 272, directly after the page loop with no try/finally.  The boolean
records whether the close call executed before control leaves the
function. -/
def extract_data_from_pdf_model {α : Type} (pages : List (Except String α)) :
    Except String (List α) × Bool :=
  match processPages pages with
  | Except.ok rows => (Except.ok rows, true)
  | Except.error e => (Except.error e, false)

/-- The two status lines printed for one document by `main`
(src/main.py lines 309-317): the processing line, then the line produced by
the result of `extract_data_from_pdf` or by the caught exception. -/
def reportLines (name : String) (outcome : Except String (Option String)) : List String :=
  ("Processing " ++ name ++ "...") ::
  (match outcome with
   | Except.ok (some p) => ["Successfully created CSV: " ++ p]
   | Except.ok none => ["No data extracted from " ++ name]
   | Except.error e => ["Error processing " ++ name ++ ": " ++ e])

/-- The document loop of `main` (src/main.py lines 307-317), with one
document abstracted as its name and outcome.  The try/except inside the
loop turns any error into a report, so the loop itself is total. -/
def mainLoop : List (String × Except String (Option String)) → List String
  | [] => []
  | d :: rest => reportLines d.1 d.2 ++ mainLoop rest

/-! Helper lemmas about the price matcher.  The central fact is that every
numeric text the price regex can match converts successfully, so a line is
a price line exactly when PRICE_RE matches it. -/

lemma digit_ne_comma (a : Char) (h : pyIsDigit a = true) : (a != ',') = true := by
  rcases eq_or_ne a ',' with rfl | hne
  · exact absurd h (by decide)
  · simp [bne_iff_ne]
    exact hne

lemma filter_comma_of_digits (l : List Char) (h : l.all pyIsDigit = true) :
    l.filter (fun c => c != ',') = l := by
  rw [List.filter_eq_self]
  intro a ha
  exact digit_ne_comma a (by exact List.all_eq_true.mp h a ha)

lemma commaGroups_digits (l : List Char) :
    (((commaGroups l).1).filter (fun c => c != ',')).all pyIsDigit = true := by
  induction l using commaGroups.induct with
  | case1 a b c t hd ih =>
    simp only [commaGroups, hd, if_true]
    simp only [Bool.and_eq_true] at hd
    obtain ⟨⟨ha, hb⟩, hc⟩ := hd
    simp only [List.filter_cons]
    simp [digit_ne_comma a ha, digit_ne_comma b hb, digit_ne_comma c hc, ha, hb, hc, ih]
  | case2 a b c t hd =>
    simp [commaGroups, hd]
  | case3 l h =>
    rw [commaGroups.eq_def]
    split
    · exact absurd rfl (h _ _ _ _)
    · simp

lemma fracPart_shape (l : List Char) :
    (fracPart l).1 = [] ∨
      ∃ fd, (fracPart l).1 = '.' :: fd ∧ fd.all pyIsDigit = true := by
  rcases l with _ | ⟨c, t⟩
  · left
    simp [fracPart]
  · by_cases hc : c = '.'
    · subst hc
      by_cases hd : (t.takeWhile pyIsDigit).isEmpty
      · left
        simp [fracPart, hd]
      · right
        exact ⟨t.takeWhile pyIsDigit, by simp [fracPart, hd], List.all_takeWhile⟩
    · left
      rw [fracPart.eq_def]
      split
      · simp_all
      · simp

lemma all_digits_take (l : List Char) (n : ℕ) :
    ((l.takeWhile pyIsDigit).take n).all pyIsDigit = true := by
  rw [List.all_eq_true]
  intro a ha
  have := List.take_subset n (l.takeWhile pyIsDigit) ha
  exact List.mem_takeWhile_imp this

lemma parseDec_shape_isSome (dg f : List Char) (h1 : ¬ dg = [])
    (h2 : dg.all pyIsDigit = true)
    (h3 : f = [] ∨ ∃ fd, f = '.' :: fd ∧ fd.all pyIsDigit = true) :
    (parseDec (dg ++ f)).isSome = true := by
  have hall : ∀ a ∈ dg, pyIsDigit a = true := fun a ha => List.all_eq_true.mp h2 a ha
  have hemp : dg.isEmpty = false := by
    cases dg
    · exact absurd rfl h1
    · rfl
  rcases h3 with rfl | ⟨fd, rfl, hfd⟩
  · unfold parseDec
    rw [List.takeWhile_append_of_pos hall, List.dropWhile_append_of_pos hall]
    simp [hemp]
  · unfold parseDec
    rw [List.takeWhile_append_of_pos hall, List.dropWhile_append_of_pos hall]
    have hdot : pyIsDigit '.' = false := by decide
    simp [hdot, hemp, hfd]

lemma filter_fracPart (f : List Char)
    (h : f = [] ∨ ∃ fd, f = '.' :: fd ∧ fd.all pyIsDigit = true) :
    f.filter (fun c => c != ',') = f := by
  rcases h with rfl | ⟨fd, rfl, hfd⟩
  · rfl
  · rw [List.filter_cons]
    simp only [show (('.' : Char) != ',') = true by decide, if_true]
    rw [filter_comma_of_digits fd hfd]

lemma priceAlt1_total (l : List Char) (nr : List Char × List Char)
    (h : priceAlt1 l = some nr) :
    (parseDec (nr.1.filter (fun c => c != ','))).isSome = true := by
  simp only [priceAlt1] at h
  by_cases hd : ((l.takeWhile pyIsDigit).take 3).isEmpty
  · rw [if_pos hd] at h
    exact absurd h (by simp)
  · rw [if_neg hd] at h
    have h1 := (Option.some.injEq _ _).mp h
    rw [← h1]
    simp only []
    have hds : ((l.takeWhile pyIsDigit).take 3).all pyIsDigit = true := all_digits_take l 3
    have hfs := fracPart_shape (commaGroups (l.drop ((l.takeWhile pyIsDigit).take 3).length)).2
    rw [List.filter_append, List.filter_append]
    rw [filter_comma_of_digits _ hds, filter_fracPart _ hfs]
    refine parseDec_shape_isSome _ _ ?_ ?_ hfs
    · intro hq
      rcases List.append_eq_nil.mp hq with ⟨hq1, _⟩
      rw [hq1] at hd
      exact hd rfl
    · rw [List.all_append]
      exact Bool.and_eq_true_iff.mpr ⟨hds, commaGroups_digits _⟩

lemma priceAlt2_total (l : List Char) (nr : List Char × List Char)
    (h : priceAlt2 l = some nr) :
    (parseDec (nr.1.filter (fun c => c != ','))).isSome = true := by
  simp only [priceAlt2] at h
  by_cases hd : (l.takeWhile pyIsDigit).isEmpty
  · rw [if_pos hd] at h
    exact absurd h (by simp)
  · rw [if_neg hd] at h
    have h1 := (Option.some.injEq _ _).mp h
    rw [← h1]
    simp only []
    have hds : (l.takeWhile pyIsDigit).all pyIsDigit = true := List.all_takeWhile
    have hfs := fracPart_shape (l.drop (l.takeWhile pyIsDigit).length)
    rw [List.filter_append]
    rw [filter_comma_of_digits _ hds, filter_fracPart _ hfs]
    refine parseDec_shape_isSome _ _ ?_ hds hfs
    intro hq
    rw [hq] at hd
    exact hd rfl

lemma numAt_total (l : List Char) (nr : List Char × List Char)
    (h : numAt l = some nr) :
    (parseDec (nr.1.filter (fun c => c != ','))).isSome = true := by
  unfold numAt at h
  cases h1 : priceAlt1 l with
  | some r =>
    rw [h1] at h
    exact priceAlt1_total l nr (h1.trans h)
  | none =>
    rw [h1] at h
    exact priceAlt2_total l nr h

lemma tryNum_total (cur : Option (List Char)) (r : List Char)
    (out : Option (List Char) × List Char × List Char)
    (h : tryNum cur r = some out) :
    (parseDec (out.2.1.filter (fun c => c != ','))).isSome = true := by
  unfold tryNum at h
  cases hn : numAt (skipWs r) with
  | some nr =>
    rw [hn] at h
    have h1 := (Option.some.injEq _ _).mp h
    rw [← h1]
    exact numAt_total _ nr hn
  | none =>
    rw [hn] at h
    exact absurd h (by simp)

lemma priceMatchAt_total (l : List Char)
    (out : Option (List Char) × List Char × List Char)
    (h : priceMatchAt l = some out) :
    (parseDec (out.2.1.filter (fun c => c != ','))).isSome = true := by
  unfold priceMatchAt at h
  obtain ⟨c, _, hc⟩ := List.exists_of_findSome?_eq_some h
  exact tryNum_total c.1 c.2 out hc

/-- Every line on which PRICE_RE matches yields a numeric text that
converts: the float conversion of the match with commas removed cannot fail, so the try/except of
`_normalize_price_str` never takes its except branch. -/
lemma priceFind_total (l : List Char) :
    ∀ (f : PriceFound), priceFind l = some f →
      (parseDec (f.num.filter (fun c => c != ','))).isSome = true := by
  induction l using priceFind.induct with
  | case1 r hr =>
    intro f h
    unfold priceFind at h
    rw [hr] at h
    have h1 := (Option.some.injEq _ _).mp h
    rw [← h1]
    exact priceMatchAt_total [] r hr
  | case2 hr =>
    intro f h
    unfold priceFind at h
    rw [hr] at h
    exact absurd h (by simp)
  | case3 c t r hr =>
    intro f h
    unfold priceFind at h
    rw [hr] at h
    have h1 := (Option.some.injEq _ _).mp h
    rw [← h1]
    exact priceMatchAt_total (c :: t) r hr
  | case4 c t hr f2 hf ih =>
    intro f h
    unfold priceFind at h
    rw [hr, hf] at h
    have h1 := (Option.some.injEq _ _).mp h
    rw [← h1]
    simp only []
    exact ih f2 hf
  | case5 c t hr hf ih =>
    intro f h
    unfold priceFind at h
    rw [hr, hf] at h
    exact absurd h (by simp)

/-- A line contributes a product row exactly when PRICE_RE matches it: the
emitted-row criterion of lines 85-87 coincides with the description
exclusion criterion of line 82. -/
lemma rowOfLine_isSome (pname : List Char) (sk : Option (List Char)) (ln : List Char) :
    (rowOfLine pname sk ln).isSome = (priceFind ln).isSome := by
  cases h : priceFind ln with
  | none =>
    unfold rowOfLine normalize_price_str
    rw [h]
    simp
  | some f =>
    have ht := priceFind_total ln f h
    obtain ⟨q, hq⟩ := Option.isSome_iff_exists.mp ht
    unfold rowOfLine normalize_price_str
    rw [h]
    simp only []
    rw [hq]
    simp

lemma filterMap_rowOfLine_length (pname : List Char) (sk : Option (List Char))
    (lines : List (List Char)) :
    (lines.filterMap (rowOfLine pname sk)).length =
      (lines.filter (fun ln => (priceFind ln).isSome)).length := by
  induction lines with
  | nil => rfl
  | cons a t ih =>
    rw [List.filterMap_cons, List.filter_cons]
    cases hr : rowOfLine pname sk a with
    | none =>
      have hp : (priceFind a).isSome = false := by
        rw [← rowOfLine_isSome pname sk a, hr]
        rfl
      simp [hp, ih]
    | some r =>
      have hp : (priceFind a).isSome = true := by
        rw [← rowOfLine_isSome pname sk a, hr]
        rfl
      simp [hp, ih]

/-- C1: for every text segment, the parser returns one row per price line
when at least one line matches the price pattern, exactly one fallback row
when the segment has non-empty lines but none matches, and the empty list
exactly when the segment has no non-empty line. -/
theorem parse_row_count (text : String) :
    (parse_text_block_to_products text).length =
      if (linesOf text).isEmpty then 0
      else if countPriceLines text = 0 then 1 else countPriceLines text := by
  unfold parse_text_block_to_products countPriceLines
  cases h : linesOf text with
  | nil => simp
  | cons l0 rest =>
    simp only [List.isEmpty_cons, Bool.false_eq_true, if_false]
    have hlen := filterMap_rowOfLine_length
      ((scanNameSku (l0 :: rest)).1.getD l0) (scanNameSku (l0 :: rest)).2 (l0 :: rest)
    by_cases hr0 :
        ((l0 :: rest).filter (fun ln => (priceFind ln).isSome)).length = 0
    · have hrows :
          (l0 :: rest).filterMap
            (rowOfLine ((scanNameSku (l0 :: rest)).1.getD l0) (scanNameSku (l0 :: rest)).2) = [] :=
        List.length_eq_zero.mp (hlen.trans hr0)
      simp [hrows, hr0]
    · have hrows :
          ((l0 :: rest).filterMap
            (rowOfLine ((scanNameSku (l0 :: rest)).1.getD l0) (scanNameSku (l0 :: rest)).2)).isEmpty = false := by
        rcases hq : (l0 :: rest).filterMap
            (rowOfLine ((scanNameSku (l0 :: rest)).1.getD l0) (scanNameSku (l0 :: rest)).2) with _ | ⟨r, rs⟩
        · rw [hq] at hlen
          exact absurd hlen.symm hr0
        · rfl
      simp [hrows, hr0, hlen]

lemma pyIsSpace_digit (c : Char) (h : pyIsDigit c = true) : pyIsSpace c = false := by
  simp only [pyIsDigit, decide_eq_true_eq] at h
  simp only [pyIsSpace, decide_eq_false_iff_not]
  omega

lemma toLower_digit (c : Char) (h : pyIsDigit c = true) : c.toLower = c := by
  simp only [pyIsDigit, decide_eq_true_eq] at h
  simp only [Char.toLower]
  rw [if_neg (by omega)]

lemma startsWithCi_digit_head (p : Char) (ps : List Char) (c : Char) (t : List Char)
    (h : pyIsDigit c = true) (hp : pyIsDigit p = false) :
    startsWithCi (p :: ps) (c :: t) = none := by
  have hne : (c == p) = false := by
    rw [beq_eq_false_iff_ne]
    intro hcp
    rw [hcp] at h
    rw [h] at hp
    cases hp
  unfold startsWithCi
  rw [toLower_digit c h, hne]
  simp

lemma priceMatchAt_digit_head (c : Char) (t : List Char) (h : pyIsDigit c = true) :
    (priceMatchAt (c :: t)).isSome = true := by
  have h1 : startsWithCi "₹".data (c :: t) = none :=
    startsWithCi_digit_head '₹' [] c t h (by decide)
  have h2 : startsWithCi "rs".data (c :: t) = none :=
    startsWithCi_digit_head 'r' ['s'] c t h (by decide)
  have h3 : startsWithCi "inr".data (c :: t) = none :=
    startsWithCi_digit_head 'i' ['n', 'r'] c t h (by decide)
  unfold priceMatchAt curAlternatives
  rw [h1, h2, h3]
  rw [List.nil_append, List.findSome?_cons]
  unfold tryNum skipWs numAt priceAlt1
  rw [List.dropWhile_cons, pyIsSpace_digit c h]
  simp only [Bool.false_eq_true, if_false, List.takeWhile_cons, h, if_true]
  simp

lemma priceFind_isSome_of_hasDigit (l : List Char) (h : hasDigit l = true) :
    (priceFind l).isSome = true := by
  induction l with
  | nil => simp [hasDigit] at h
  | cons c t ih =>
    unfold priceFind
    cases hm : priceMatchAt (c :: t) with
    | some r => simp
    | none =>
      have hc : pyIsDigit c = false := by
        cases hcd : pyIsDigit c
        · rfl
        · have hs := priceMatchAt_digit_head c t hcd
          rw [hm] at hs
          exact absurd hs (by simp)
      have ht : hasDigit t = true := by
        simp only [hasDigit, List.any_eq_true] at h ⊢
        rcases h with ⟨x, hx, hdx⟩
        rcases List.mem_cons.mp hx with rfl | hx2
        · rw [hdx] at hc
          cases hc
        · exact ⟨x, hx2, hdx⟩
      cases hf : priceFind t with
      | some f2 => simp
      | none =>
        have := ih ht
        rw [hf] at this
        exact absurd this (by simp)

/-- C10 (amended): every line containing a decimal digit is classified as a
price line — PRICE_RE matches it, it never enters the description buffer,
and it contributes its own product row; the price of that row is the numeric part
of the leftmost PRICE_RE match, which can be a proper prefix of the first
digit run (see the counterexample for the truncation to three digits). -/
theorem digit_line_is_price_line (ln : List Char) (h : hasDigit ln = true) :
    (priceFind ln).isSome = true ∧
    (∀ lines, ln ∉ descriptionLinesOf lines) ∧
    (∀ pname sk, (rowOfLine pname sk ln).isSome = true) := by
  have hp := priceFind_isSome_of_hasDigit ln h
  refine ⟨hp, ?_, ?_⟩
  · intro lines hmem
    have h2 := (List.mem_filter.mp hmem).2
    rw [Option.isNone_iff_eq_none] at h2
    rw [h2] at hp
    exact absurd hp (by simp)
  · intro pname sk
    rw [rowOfLine_isSome]
    exact hp

/-- C10 witness: the line "Pack of 3" — no currency marker, no price
context — is classified as a price line and yields a row. -/
theorem digit_line_is_price_line_witness :
    hasDigit "Pack of 3".data = true ∧
    (priceFind "Pack of 3".data).isSome = true ∧
    "Pack of 3".data ∉ descriptionLinesOf (linesOf "Pack of 3") ∧
    (rowOfLine "Pack of 3".data none "Pack of 3".data).isSome = true := by
  have h := digit_line_is_price_line "Pack of 3".data (by decide)
  exact ⟨by decide, h.1, h.2.1 _, h.2.2 _ _⟩

/-- C10 counterexample: the line "Pack of 1234" yields price 123, not the
first numeric token 1234 — the regex alternative `[0-9]{1,3}...` matches
before `[0-9]+` and truncates the run. -/
theorem digit_run_truncated_counterexample :
    (parse_text_block_to_products "Pack of 1234").map (fun r => r.price) = [some 123] ∧
    ¬ ((parse_text_block_to_products "Pack of 1234").map (fun r => r.price) = [some 1234]) := by
  constructor
  · decide
  · decide

/-- C6: unit detection is case-insensitive and matches whole tokens only:
the price line "250g - 199" yields unit "g" (from the variant text left
after removing the price matches), "250G - 199" yields "G", and
"Golden 499" yields no unit because the "g" inside "Golden" is not a whole
token. -/
theorem unit_whole_token_cases :
    ((parse_text_block_to_products "250g - 199").map (fun r => r.unit) = [some "g"]) ∧
    ((parse_text_block_to_products "250G - 199").map (fun r => r.unit) = [some "G"]) ∧
    ((parse_text_block_to_products "Golden 499").map (fun r => r.unit) = [none]) := by
  refine ⟨by decide, by decide, by decide⟩

/-- C2: evaluating the parser on the segment of end-to-end scenario 1.  The
code yields THREE rows (the name line "SuperWidget 250" itself matches the
price pattern), with prices 250, 250 and 500 — not the two rows with prices
199 and 349 the scenario describes — and an empty shared description, since
every line is a price line. -/
theorem scenario1_eval :
    parse_text_block_to_products "SuperWidget 250\n250ml - 199\n500ml - 349" =
      [⟨"SuperWidget 250", none, some "SuperWidget", none, some 250, none, some ""⟩,
       ⟨"SuperWidget 250", none, some "ml", some "ml", some 250, none, some ""⟩,
       ⟨"SuperWidget 250", none, some "ml", some "ml", some 500, none, some ""⟩] := by
  decide

/-- C3 (amended): on a segment with non-empty lines none of which matches
the price pattern, the parser returns exactly one fallback row with variant,
unit, price and currency unset, and with description equal to the non-empty
trimmed lines JOINED BY SINGLE SPACES, truncated to 400 characters (not the
raw segment text, whose line breaks are lost). -/
theorem no_price_single_fallback_row (text : String)
    (h1 : linesOf text ≠ []) (h2 : countPriceLines text = 0) :
    parse_text_block_to_products text =
      [{ product_name :=
           String.mk ((scanNameSku (linesOf text)).1.getD ((linesOf text).headD [])),
         sku := ((scanNameSku (linesOf text)).2).map String.mk,
         variant := none, unit := none, price := none, currency := none,
         description := some (String.mk ((joinSp (linesOf text)).take 400)) }] := by
  unfold countPriceLines at h2
  unfold parse_text_block_to_products
  cases h : linesOf text with
  | nil => exact absurd h h1
  | cons l0 rest =>
    rw [h] at h2
    have hall : ∀ ln ∈ l0 :: rest, (priceFind ln).isSome = false := by
      intro ln hln
      have hfil := List.filter_eq_nil_iff.mp (List.length_eq_zero.mp h2)
      have := hfil ln hln
      cases hp : (priceFind ln).isSome
      · rfl
      · exact absurd hp this
    have hrows :
        (l0 :: rest).filterMap
          (rowOfLine ((scanNameSku (l0 :: rest)).1.getD l0) (scanNameSku (l0 :: rest)).2) = [] := by
      rw [List.filterMap_eq_nil_iff]
      intro ln hln
      have hs := rowOfLine_isSome ((scanNameSku (l0 :: rest)).1.getD l0)
        (scanNameSku (l0 :: rest)).2 ln
      rw [hall ln hln] at hs
      exact Option.not_isSome_iff_eq_none.mp (by rw [hs]; simp)
    simp [hrows]

/-- C3 counterexample: for the two-line segment "a\nb" (which has no price
line), the emitted description is "a b" — the lines joined with a space —
while the full segment text truncated to 400 characters is "a\nb"; the
the description value stated by the claim is wrong for any multi-line segment. -/
theorem fallback_description_counterexample :
    (parse_text_block_to_products "a\nb").map (fun r => r.description) = [some "a b"] ∧
    ¬ ((parse_text_block_to_products "a\nb").map (fun r => r.description) =
        [some (String.mk ("a\nb".data.take 400))]) := by
  constructor
  · decide
  · decide

/-- C3 witness: the amended theorem applied to the concrete segment
"a\nb". -/
theorem no_price_single_fallback_row_witness :
    linesOf "a\nb" ≠ [] ∧ countPriceLines "a\nb" = 0 ∧
    parse_text_block_to_products "a\nb" =
      [⟨"a", none, none, none, none, none, some "a b"⟩] := by
  refine ⟨by decide, by decide, ?_⟩
  rw [no_price_single_fallback_row "a\nb" (by decide) (by decide)]
  decide

lemma splitRuns_ne_nil (l : List Char) : splitRuns l ≠ [] := by
  induction l using splitRuns.induct with
  | case1 => simp [splitRuns]
  | case2 c hc => simp [splitRuns, hc]
  | case3 c hc => simp [splitRuns, hc]
  | case4 c1 c2 t h1 h2 ih => simpa [splitRuns, h1, h2] using ih
  | case5 c1 c2 t h1 h2 ih => simp [splitRuns, h1, h2]
  | case6 c1 c2 t h1 s rest heq ih => simp [splitRuns, h1, heq]
  | case7 c1 c2 t h1 heq ih => exact absurd heq ih

lemma joinUnderscore_cons_cons (s : List Char) (r : List (List Char)) (hr : r ≠ []) :
    joinUnderscore (s :: r) = s ++ '_' :: joinUnderscore r := by
  cases r with
  | nil => exact absurd rfl hr
  | cons a rs => rfl

lemma sanitizeGo_eq_join (l : List Char) :
    sanitizeGo l = joinUnderscore (splitRuns l) := by
  induction l using splitRuns.induct with
  | case1 => rfl
  | case2 c hc => simp [sanitizeGo, splitRuns, hc, joinUnderscore]
  | case3 c hc => simp [sanitizeGo, splitRuns, hc, joinUnderscore]
  | case4 c1 c2 t h1 h2 ih => simp [sanitizeGo, splitRuns, h1, h2, ih]
  | case5 c1 c2 t h1 h2 ih =>
    rw [show sanitizeGo (c1 :: c2 :: t) = '_' :: sanitizeGo (c2 :: t) by
          simp [sanitizeGo, h1, h2],
        show splitRuns (c1 :: c2 :: t) = [] :: splitRuns (c2 :: t) by
          simp [splitRuns, h1, h2],
        joinUnderscore_cons_cons [] (splitRuns (c2 :: t)) (splitRuns_ne_nil _), ih]
    rfl
  | case6 c1 c2 t h1 s rest heq ih =>
    rw [show sanitizeGo (c1 :: c2 :: t) = c1 :: sanitizeGo (c2 :: t) by
          simp [sanitizeGo, h1],
        show splitRuns (c1 :: c2 :: t) = (c1 :: s) :: rest by
          simp [splitRuns, h1, heq], ih, heq]
    cases rest with
    | nil => rfl
    | cons a rs =>
      rw [joinUnderscore_cons_cons (c1 :: s) (a :: rs) (by simp),
          joinUnderscore_cons_cons s (a :: rs) (by simp)]
      rfl
  | case7 c1 c2 t h1 heq ih => exact absurd heq (splitRuns_ne_nil _)

/-- C8 (amended): `sanitize_filename` trims the name and replaces each
MAXIMAL RUN of the invalid characters with a SINGLE underscore (the regex
class carries a + quantifier), leaving all other characters unchanged: it
equals splitting the trimmed name on invalid-character runs and rejoining
with single underscores. -/
theorem sanitize_collapses_runs (name : String) :
    sanitize_filename name =
      String.mk (joinUnderscore (splitRuns (pyStrip name.data))) := by
  unfold sanitize_filename
  rw [sanitizeGo_eq_join]

/-- C8 counterexample: on "a<>b" the code yields "a_b" — one underscore for
the whole run "<>" — not "a__b" with one underscore per occurrence. -/
theorem sanitize_per_occurrence_counterexample :
    sanitize_filename "a<>b" = "a_b" ∧ ¬ (sanitize_filename "a<>b" = "a__b") := by
  constructor
  · decide
  · decide

/-- C7: a row whose text position box is absent or all-zero receives the
path of the first ImageAsset in extraction order when the page has any, and
no path when the page has none — the assignment is exactly
`head-image-path-or-unset`. -/
theorem no_bbox_takes_first_image (tb : Option Box) (images : List ImageEntry)
    (h : tb = none ∨ tb = some zeroBox) :
    assignImagePath tb images = (images.head?).map (fun i => i.path) := by
  rcases h with rfl | rfl
  · rfl
  · simp [assignImagePath]

/-- C7 witness: an all-zero box with one positionless image on the page. -/
theorem no_bbox_takes_first_image_witness :
    ((some zeroBox : Option Box) = none ∨ (some zeroBox : Option Box) = some zeroBox) ∧
    assignImagePath (some zeroBox) [⟨7, none, "images/p1_1.png"⟩] = some "images/p1_1.png" ∧
    assignImagePath (some zeroBox) [] = none := by
  refine ⟨Or.inr rfl, ?_, ?_⟩
  · rw [no_bbox_takes_first_image (some zeroBox) [⟨7, none, "images/p1_1.png"⟩] (Or.inr rfl)]
    rfl
  · rw [no_bbox_takes_first_image (some zeroBox) [] (Or.inr rfl)]
    rfl

/-- C5: evaluation of the document-handle lifecycle.  When the processing
of the first page raises, the model exits with the close flag FALSE — `doc.close()`
on src/main.py line 272 sits after the page loop with no try/finally, so an
error path leaves the handle open, contradicting the claim; the success
path does close it. -/
theorem close_skipped_on_page_error :
    (extract_data_from_pdf_model ([Except.error "page read failure"] : List (Except String ℕ))).2
        = false ∧
    (extract_data_from_pdf_model ([Except.ok 0] : List (Except String ℕ))).2 = true := by
  exact ⟨rfl, rfl⟩

lemma reportLines_length (n : String) (oc : Except String (Option String)) :
    (reportLines n oc).length = 2 := by
  cases oc with
  | ok o => cases o <;> rfl
  | error e => rfl

/-- C9: the orchestrator loop reports every document (two status lines per
document, failures included) and a document whose processing raises is
reported in place while every document after it is still processed. -/
theorem main_loop_error_isolated :
    (∀ docs, (mainLoop docs).length = 2 * docs.length) ∧
    (∀ (pre : List (String × Except String (Option String))) (n : String) (e : String)
       (post : List (String × Except String (Option String))),
        mainLoop (pre ++ (n, Except.error e) :: post) =
          mainLoop pre ++ reportLines n (Except.error e) ++ mainLoop post) := by
  constructor
  · intro docs
    induction docs with
    | nil => rfl
    | cons d rest ih =>
      show (reportLines d.1 d.2 ++ mainLoop rest).length = 2 * (rest.length + 1)
      rw [List.length_append, reportLines_length, ih]
      omega
  · intro pre n e post
    induction pre with
    | nil => simp [mainLoop]
    | cons d rest ih =>
      show reportLines d.1 d.2 ++ mainLoop (rest ++ (n, Except.error e) :: post) =
        (reportLines d.1 d.2 ++ mainLoop rest) ++ reportLines n (Except.error e) ++ mainLoop post
      rw [ih]
      simp [List.append_assoc]

end PdfExtract

